import Mathlib

/-!
Verification of the contact-book program (`address_book.py`): domain model,
field validation, the upcoming-birthday query and the persistence contract.

The Python code relies on `datetime.date`; we embed the proleptic Gregorian
calendar (leap years, month lengths, `toordinal`, `weekday`) exactly as the
`datetime` module defines it.  `datetime.now()` is modelled as an explicit
`today` parameter.
-/

namespace AB

/-- Gregorian leap-year rule, as used by `datetime.date`. -/
def isLeap (y : Nat) : Bool :=
  (y % 4 == 0 && y % 100 != 0) || y % 400 == 0

/-- Length of month `m` (1-12) of year `y`, as in `datetime`. -/
def daysInMonth (y m : Nat) : Nat :=
  if m = 2 then (if isLeap y then 29 else 28)
  else if m = 4 ∨ m = 6 ∨ m = 9 ∨ m = 11 then 30
  else 31

/-- A calendar date `year-month-day`, the embedding of `datetime.date`. -/
structure Date where
  year : Nat
  month : Nat
  day : Nat
deriving Repr, DecidableEq

/-- The date is one `datetime.date` would accept (Python also caps the year
at 9999; no claim depends on that cap, so we leave the year unbounded). -/
def Date.Valid (dt : Date) : Prop :=
  1 ≤ dt.year ∧ 1 ≤ dt.month ∧ dt.month ≤ 12 ∧ 1 ≤ dt.day ∧
    dt.day ≤ daysInMonth dt.year dt.month

instance (dt : Date) : Decidable dt.Valid := by
  unfold Date.Valid; infer_instance

/-- Days in the months strictly before month `m` of year `y`. -/
def daysBeforeMonth (y m : Nat) : Nat :=
  ((List.range (m - 1)).map (fun k => daysInMonth y (k + 1))).sum

/-- Days in the years strictly before year `y` (year 1 is the first). -/
def daysBeforeYear (y : Nat) : Nat :=
  365 * (y - 1) + (y - 1) / 4 - (y - 1) / 100 + (y - 1) / 400

/-- `datetime.date.toordinal`: day number with 0001-01-01 mapped to 1. -/
def toordinal (dt : Date) : Nat :=
  daysBeforeYear dt.year + daysBeforeMonth dt.year dt.month + dt.day

/-- `datetime.date.weekday`: Monday = 0 through Sunday = 6. -/
def pyWeekday (dt : Date) : Nat :=
  (toordinal dt + 6) % 7

/-- Successor calendar date (used to embed `+ timedelta(days=1)`). -/
def nextDate (dt : Date) : Date :=
  if dt.day < daysInMonth dt.year dt.month then ⟨dt.year, dt.month, dt.day + 1⟩
  else if dt.month < 12 then ⟨dt.year, dt.month + 1, 1⟩
  else ⟨dt.year + 1, 1, 1⟩

/-- `date + timedelta(days=n)` for `n ≥ 0`. -/
def addDays (dt : Date) : Nat → Date
  | 0 => dt
  | n + 1 => nextDate (addDays dt n)

/-- Numeric value of an ASCII digit character. -/
def digitVal (c : Char) : Nat := c.toNat - 48

/-- The ASCII digit character for `n ≤ 9`. -/
def digitChar : Nat → Char
  | 0 => '0' | 1 => '1' | 2 => '2' | 3 => '3' | 4 => '4'
  | 5 => '5' | 6 => '6' | 7 => '7' | 8 => '8' | _ => '9'

/-- Consume exactly `n` digit-class characters from the input, returning the
rest, as the regex fragment matching a run of `n` digits does.  (Python's
digit class also covers non-ASCII Unicode decimal digits; we restrict the
embedding to ASCII, which every input below stays inside.) -/
def matchDigitRun : Nat → List Char → Option (List Char)
  | 0, cs => some cs
  | _ + 1, [] => none
  | n + 1, c :: cs => if c.isDigit then matchDigitRun n cs else none

/-- The end anchor of Python regular expressions: it matches at the end of
the string, or just before a newline that ends the string. -/
def dollarAnchor (cs : List Char) : Bool :=
  match cs with
  | [] => true
  | [c] => c == '\n'
  | _ => false

/-- `Phone.validate(value)`: whether `re.match` of ten digit-class characters
followed by the end anchor succeeds on `value`. -/
def validate_phone (s : String) : Bool :=
  match matchDigitRun 10 s.data with
  | some rest => dollarAnchor rest
  | none => false

/-- Value of a two-digit numeral. -/
def val2 (a b : Char) : Nat := 10 * digitVal a + digitVal b

/-- Value of a four-digit numeral. -/
def val4 (a b c d : Char) : Nat :=
  1000 * digitVal a + 100 * digitVal b + 10 * digitVal c + digitVal d

/-- The two-digit alternatives of the strptime day directive: `30`-`31`,
`10`-`29` or `01`-`09`, i.e. two digits whose value lies in 1..31. -/
def dayTok2 (a b : Char) : Option Nat :=
  if a.isDigit ∧ b.isDigit ∧ 1 ≤ val2 a b ∧ val2 a b ≤ 31 then some (val2 a b)
  else none

/-- The one-digit alternative of the strptime day directive: `1`-`9`. -/
def dayTok1 (a : Char) : Option Nat :=
  if a.isDigit ∧ 1 ≤ digitVal a then some (digitVal a) else none

/-- The two-digit alternatives of the strptime month directive: `10`-`12`
or `01`-`09`. -/
def monthTok2 (a b : Char) : Option Nat :=
  if a.isDigit ∧ b.isDigit ∧ 1 ≤ val2 a b ∧ val2 a b ≤ 12 then some (val2 a b)
  else none

/-- The one-digit alternative of the strptime month directive: `1`-`9`. -/
def monthTok1 (a : Char) : Option Nat :=
  if a.isDigit ∧ 1 ≤ digitVal a then some (digitVal a) else none

/-- The strptime year directive: exactly four digits. -/
def yearTok (a b c d : Char) : Option Nat :=
  if a.isDigit ∧ b.isDigit ∧ c.isDigit ∧ d.isDigit then some (val4 a b c d)
  else none

/-- After the strptime pattern matched, `datetime.strptime` builds
`date(year, month, day)`, which raises ValueError when the day overflows
the month or the year is 0. -/
def buildDate (dv mv yv : Option Nat) : Option Date :=
  match dv, mv, yv with
  | some d, some m, some y =>
      if 1 ≤ y ∧ d ≤ daysInMonth y m then some ⟨y, m, d⟩ else none
  | _, _, _ => none

/-- `datetime.strptime(value, d.m.Y-format)`: the CPython pattern accepts a
one- or two-digit day, a one- or two-digit month and a four-digit year
separated by literal dots, matched against the whole string; then the date
object is constructed.  The four list shapes below are exactly the four
day-width/month-width combinations; their dot positions are mutually
exclusive, and whenever two length-9 shapes both fit structurally, neither
can produce a match (the shared character would have to be both a dot and a
digit), so trying them in order is faithful to regex backtracking. -/
def strptimeDMY (s : String) : Option Date :=
  match s.data with
  | [a, b, c, d, e, f, g, h, i, j] =>
      if c = '.' ∧ f = '.' then
        buildDate (dayTok2 a b) (monthTok2 d e) (yearTok g h i j)
      else none
  | [a, b, c, d, e, f, g, h, i] =>
      if b = '.' ∧ e = '.' then
        buildDate (dayTok1 a) (monthTok2 c d) (yearTok f g h i)
      else if c = '.' ∧ e = '.' then
        buildDate (dayTok2 a b) (monthTok1 d) (yearTok f g h i)
      else none
  | [a, b, c, d, e, f, g, h] =>
      if b = '.' ∧ d = '.' then
        buildDate (dayTok1 a) (monthTok1 c) (yearTok e f g h)
      else none
  | _ => none

/-- `Birthday.validate(value)`: true iff `datetime.strptime` succeeds. -/
def validate_birthday (s : String) : Bool :=
  (strptimeDMY s).isSome

/-- `Phone(value)`: validates before storing, so an invalid phone raises and
is never constructed. -/
def phoneNew (v : String) : Except String String :=
  if validate_phone v then .ok v
  else .error "Phone number must be a string of 10 digits."

/-- `Birthday(value)`: validates before storing. -/
def birthdayNew (v : String) : Except String String :=
  if validate_birthday v then .ok v
  else .error "Invalid date format. Use DD.MM.YYYY"

/-- A `Record`: a name, the ordered phone values, and the optional birthday
string (phones and birthday hold the wrapped `value` strings). -/
structure Record where
  name : String
  phones : List String
  birthday : Option String
deriving Repr, DecidableEq

/-- `Record(name)`. -/
def recordNew (name : String) : Record := ⟨name, [], none⟩

/-- `Record.find_phone`: first stored phone whose value equals the query. -/
def find_phone (r : Record) (p : String) : Option String :=
  r.phones.find? (fun q => q == p)

/-- Mutating Record methods are embedded as state transformers returning the
call's outcome (ok or the ValueError message) together with the record as it
stands after the call, so that partial mutation before a raise is
observable. -/
def add_phone (r : Record) (p : String) : Except String Unit × Record :=
  match phoneNew p with
  | .error e => (.error e, r)
  | .ok v => (.ok (), { r with phones := r.phones ++ [v] })

/-- `Record.remove_phone`: `find_phone`, then `list.remove` of the found
object (the first phone whose value equals `p`, which is what erasing the
first occurrence of `p` does), else raise. -/
def remove_phone (r : Record) (p : String) : Except String Unit × Record :=
  match find_phone r p with
  | some _ => (.ok (), { r with phones := r.phones.erase p })
  | none => (.error "Phone number not found.", r)

/-- `Record.edit_phone`: validate the new number first (raising before any
mutation), then find the old one and do `remove_phone` + `add_phone`. -/
def edit_phone (r : Record) (o n : String) : Except String Unit × Record :=
  if !validate_phone n then
    (.error "New phone number must be a string of 10 digits.", r)
  else
    match find_phone r o with
    | some _ =>
        let s1 := remove_phone r o
        match s1.1 with
        | .error e => (.error e, s1.2)
        | .ok _ => add_phone s1.2 n
    | none => (.error "Old phone number not found.", r)

/-- `Record.add_birthday`: validate, then unconditionally replace. -/
def add_birthday (r : Record) (b : String) : Except String Unit × Record :=
  match birthdayNew b with
  | .error e => (.error e, r)
  | .ok v => (.ok (), { r with birthday := some v })

/-- The `AddressBook` UserDict data: an insertion-ordered association of
name keys to records, as a Python dict stores and iterates it. -/
abbrev AddressBook := List (String × Record)

/-- `AddressBook.add_record`: dict assignment `data[record.name.value] =
record` — an existing key keeps its position and gets the new record, a new
key is appended at the end. -/
def add_record (book : AddressBook) (r : Record) : AddressBook :=
  if book.any (fun e => e.1 == r.name) then
    book.map (fun e => if e.1 == r.name then (e.1, r) else e)
  else
    book ++ [(r.name, r)]

/-- Python date ordering: lexicographic on (year, month, day). -/
def dateLt (a b : Date) : Bool :=
  decide (a.year < b.year ∨ (a.year = b.year ∧
    (a.month < b.month ∨ (a.month = b.month ∧ a.day < b.day))))

/-- `date.replace(year=y)`: rebuilds the date with the new year, raising
ValueError (day is out of range for month) when the result is not a real
calendar date — the Feb 29 case. -/
def replaceYear (dt : Date) (y : Nat) : Option Date :=
  if (Date.mk y dt.month dt.day).Valid then some ⟨y, dt.month, dt.day⟩
  else none

/-- One emitted greeting: the record's name and the formatted date. -/
structure Entry where
  name : String
  congratulate_on : String
deriving Repr, DecidableEq

/-- `date.strftime` day/month field: two digits, zero padded. -/
def pad2 (n : Nat) : List Char :=
  if n < 10 then ['0', digitChar n]
  else [digitChar (n / 10), digitChar (n % 10)]

/-- `date.strftime` year field: four digits, zero padded (Python years never
exceed 9999). -/
def pad4 (n : Nat) : List Char :=
  [digitChar (n / 1000), digitChar (n / 100 % 10),
   digitChar (n / 10 % 10), digitChar (n % 10)]

/-- `strftime` of the d.m.Y format used for `congratulate_on`. -/
def strftimeDMY (dt : Date) : String :=
  ⟨pad2 dt.day ++ '.' :: pad2 dt.month ++ '.' :: pad4 dt.year⟩

/-- The body of the `get_upcoming_birthdays` loop for one record: skip a
record without a birthday; otherwise re-parse the stored string, place the
month/day in the current year, move to next year when that lies strictly
before today, keep the record only when the day difference is in 0..6, and
shift a Saturday/Sunday greeting forward by `7 - weekday` days.  A
ValueError from strptime or from `replace` aborts the whole query. -/
def upcomingOfRecord (today : Date) (r : Record) : Except String (Option Entry) :=
  match r.birthday with
  | none => .ok none
  | some s =>
    match strptimeDMY s with
    | none => .error "time data does not match format d.m.Y"
    | some bday =>
      match replaceYear bday today.year with
      | none => .error "day is out of range for month"
      | some b0 =>
        match (if dateLt b0 today then replaceYear bday (today.year + 1)
               else some b0) with
        | none => .error "day is out of range for month"
        | some bty =>
          let delta : Int := (toordinal bty : Int) - (toordinal today : Int)
          if 0 ≤ delta ∧ delta < 7 then
            let g := if pyWeekday bty = 5 ∨ pyWeekday bty = 6 then
                addDays bty (7 - pyWeekday bty)
              else bty
            .ok (some ⟨r.name, strftimeDMY g⟩)
          else .ok none

/-- `AddressBook.get_upcoming_birthdays`, with `datetime.now().date()`
passed in as `today`.  Records are visited in insertion order and emitted
entries keep that order; the first ValueError propagates out of the call,
discarding everything. -/
def get_upcoming_birthdays (today : Date) : AddressBook → Except String (List Entry)
  | [] => .ok []
  | e :: rest =>
    match upcomingOfRecord today e.2 with
    | .error m => .error m
    | .ok none => get_upcoming_birthdays today rest
    | .ok (some entry) =>
      match get_upcoming_birthdays today rest with
      | .error m => .error m
      | .ok l => .ok (entry :: l)

/-- Modelled from the spec: `save_data`/`load_data` delegate serialization
to the `pickle` module, whose byte format is outside this repository.  The
spec's persistence contract — an opaque stable form recording, for every
record, its name, the ordered phone strings and the birthday string or an
explicit unset marker, such that loading a save is field-for-field equal —
is embedded as a stream of these tokens. -/
inductive Tok where
  | nat : Nat → Tok
  | str : String → Tok
deriving Repr, DecidableEq

/-- Modelled from the spec: pickled form of one record — name, phone count,
the phones in order, then the birthday or the unset marker. -/
def encodeRecord (r : Record) : List Tok :=
  .str r.name :: .nat r.phones.length :: r.phones.map .str ++
    (match r.birthday with
     | none => [.nat 0]
     | some b => [.nat 1, .str b])

/-- Modelled from the spec: pickled form of one dict entry (key, record). -/
def encodeEntry (e : String × Record) : List Tok :=
  .str e.1 :: encodeRecord e.2

/-- Modelled from the spec: pickled form of the dict entries in order. -/
def encodeEntries : List (String × Record) → List Tok
  | [] => []
  | e :: rest => encodeEntry e ++ encodeEntries rest

/-- Modelled from the spec: `pickle.dump` of the whole AddressBook. -/
def encodeBook (book : AddressBook) : List Tok :=
  .nat book.length :: encodeEntries book

/-- Modelled from the spec: read back `n` phone strings. -/
def decodeStrs : Nat → List Tok → Option (List String × List Tok)
  | 0, ts => some ([], ts)
  | n + 1, .str s :: ts =>
    match decodeStrs n ts with
    | some (ss, rest) => some (s :: ss, rest)
    | none => none
  | _ + 1, _ => none

/-- Modelled from the spec: read back the optional birthday. -/
def decodeBirthday : List Tok → Option (Option String × List Tok)
  | .nat 0 :: ts => some (none, ts)
  | .nat 1 :: .str b :: ts => some (some b, ts)
  | _ => none

/-- Modelled from the spec: read back one record. -/
def decodeRecord : List Tok → Option (Record × List Tok)
  | .str nm :: .nat k :: ts =>
    match decodeStrs k ts with
    | some (ps, ts1) =>
      match decodeBirthday ts1 with
      | some (bd, ts2) => some (⟨nm, ps, bd⟩, ts2)
      | none => none
    | none => none
  | _ => none

/-- Modelled from the spec: read back `n` dict entries. -/
def decodeEntries : Nat → List Tok → Option (List (String × Record) × List Tok)
  | 0, ts => some ([], ts)
  | n + 1, .str key :: ts =>
    match decodeRecord ts with
    | some (r, ts1) =>
      match decodeEntries n ts1 with
      | some (es, ts2) => some ((key, r) :: es, ts2)
      | none => none
    | none => none
  | _ + 1, _ => none

/-- Modelled from the spec: `pickle.load`, failing (UnpicklingError) on any
stream that is not exactly a pickled AddressBook. -/
def decodeBook (ts : List Tok) : Option AddressBook :=
  match ts with
  | .nat k :: ts1 =>
    match decodeEntries k ts1 with
    | some (book, []) => some book
    | _ => none
  | _ => none

/-- `save_data(book, filename)`: `pickle.dump` of the book — the content the
destination file holds afterwards. -/
def save_data (book : AddressBook) : List Tok :=
  encodeBook book

/-- `load_data(filename)`: the source is `none` when the file does not
exist (`open` raises FileNotFoundError, which the code catches, returning a
fresh `AddressBook()`); otherwise `pickle.load` runs on the content, and
its failure propagates uncaught. -/
def load_data (source : Option (List Tok)) : Except String AddressBook :=
  match source with
  | none => .ok []
  | some ts =>
    match decodeBook ts with
    | some book => .ok book
    | none => .error "unpickling error"

theorem daysInMonth_pos (y m : Nat) : 1 ≤ daysInMonth y m := by
  unfold daysInMonth
  split
  · split <;> omega
  · split <;> omega

theorem daysInMonth_le (y m : Nat) : daysInMonth y m ≤ 31 := by
  unfold daysInMonth
  split
  · split <;> omega
  · split <;> omega

theorem daysBeforeMonth_succ (y m : Nat) (hm : 1 ≤ m) :
    daysBeforeMonth y (m + 1) = daysBeforeMonth y m + daysInMonth y m := by
  obtain ⟨k, rfl⟩ : ∃ k, m = k + 1 := ⟨m - 1, by omega⟩
  simp [daysBeforeMonth, List.range_succ]

theorem daysBeforeMonth_13 (y : Nat) :
    daysBeforeMonth y 13 = 337 + daysInMonth y 2 := by
  show ((List.range 12).map (fun k => daysInMonth y (k + 1))).sum = _
  norm_num [List.range_succ, daysInMonth]
  omega

theorem daysBeforeYear_succ (y : Nat) (hy : 1 ≤ y) :
    daysBeforeYear (y + 1) =
      daysBeforeYear y + (if isLeap y then 366 else 365) := by
  obtain ⟨k, rfl⟩ : ∃ k, y = k + 1 := ⟨y - 1, by omega⟩
  unfold daysBeforeYear isLeap
  simp only [Nat.add_sub_cancel]
  rw [Nat.succ_div k 4, Nat.succ_div k 100, Nat.succ_div k 400]
  simp only [Nat.dvd_iff_mod_eq_zero, Bool.or_eq_true, Bool.and_eq_true, beq_iff_eq,
    bne_iff_ne, ne_eq, decide_eq_true_eq]
  split_ifs <;> omega

theorem valid_mk (y m d : Nat) :
    (Date.mk y m d).Valid ↔
      1 ≤ y ∧ 1 ≤ m ∧ m ≤ 12 ∧ 1 ≤ d ∧ d ≤ daysInMonth y m :=
  Iff.rfl

theorem toordinal_mk (y m d : Nat) :
    toordinal ⟨y, m, d⟩ = daysBeforeYear y + daysBeforeMonth y m + d :=
  rfl

theorem nextDate_valid (dt : Date) (h : dt.Valid) : (nextDate dt).Valid := by
  obtain ⟨hy, hm1, hm2, hd1, hd2⟩ := h
  unfold nextDate
  split
  · rw [valid_mk]
    exact ⟨hy, hm1, hm2, by omega, by omega⟩
  · split
    · rw [valid_mk]
      exact ⟨hy, by omega, by omega, by omega, daysInMonth_pos _ _⟩
    · rw [valid_mk]
      exact ⟨by omega, by omega, by omega, by omega, daysInMonth_pos _ _⟩

theorem toordinal_nextDate (dt : Date) (h : dt.Valid) :
    toordinal (nextDate dt) = toordinal dt + 1 := by
  obtain ⟨hy, hm1, hm2, hd1, hd2⟩ := h
  unfold nextDate
  split
  · rw [toordinal_mk]
    unfold toordinal
    omega
  · split
    · rw [toordinal_mk]
      unfold toordinal
      rw [daysBeforeMonth_succ dt.year dt.month hm1]
      omega
    · rw [toordinal_mk]
      unfold toordinal
      have hmonth : dt.month = 12 := by omega
      simp only [hmonth] at *
      have hdim12 : daysInMonth dt.year 12 = 31 := by norm_num [daysInMonth]
      have hday : dt.day = 31 := by omega
      rw [daysBeforeYear_succ dt.year hy, hday]
      have h13 : daysBeforeMonth dt.year 13 = 337 + daysInMonth dt.year 2 :=
        daysBeforeMonth_13 dt.year
      have h12 : daysBeforeMonth dt.year 13 =
          daysBeforeMonth dt.year 12 + daysInMonth dt.year 12 :=
        daysBeforeMonth_succ dt.year 12 (by omega)
      have hdim2 : daysInMonth dt.year 2 = if isLeap dt.year then 29 else 28 := by
        norm_num [daysInMonth]
      have hdbm1 : daysBeforeMonth (dt.year + 1) 1 = 0 := by
        simp [daysBeforeMonth]
      split_ifs at hdim2 ⊢ <;> omega

theorem addDays_valid (dt : Date) (h : dt.Valid) (n : Nat) : (addDays dt n).Valid := by
  induction n with
  | zero => exact h
  | succ k ih => exact nextDate_valid _ ih

theorem toordinal_addDays (dt : Date) (h : dt.Valid) (n : Nat) :
    toordinal (addDays dt n) = toordinal dt + n := by
  induction n with
  | zero => rfl
  | succ k ih =>
      have := toordinal_nextDate (addDays dt k) (addDays_valid dt h k)
      simp only [addDays]
      omega

theorem pyWeekday_addDays (dt : Date) (h : dt.Valid) (n : Nat) :
    pyWeekday (addDays dt n) = (pyWeekday dt + n) % 7 := by
  unfold pyWeekday
  rw [toordinal_addDays dt h n]
  omega

theorem matchDigitRun_eq_some (n : Nat) (cs rest : List Char) :
    matchDigitRun n cs = some rest ↔
      ∃ ds, cs = ds ++ rest ∧ ds.length = n ∧ ∀ c ∈ ds, c.isDigit := by
  induction n generalizing cs with
  | zero =>
      unfold matchDigitRun
      constructor
      · intro h
        injection h with h
        exact ⟨[], by rw [h]; rfl, rfl, by intro c hc; cases hc⟩
      · rintro ⟨ds, rfl, hlen, -⟩
        rw [List.length_eq_zero] at hlen
        rw [hlen]
        rfl
  | succ k ih =>
      cases cs with
      | nil =>
          unfold matchDigitRun
          constructor
          · intro h; cases h
          · rintro ⟨ds, hds, hlen, -⟩
            have := congrArg List.length hds
            simp at this
            omega
      | cons c cs =>
          unfold matchDigitRun
          by_cases hd : c.isDigit
          · rw [if_pos hd, ih]
            constructor
            · rintro ⟨ds, rfl, hlen, hdig⟩
              refine ⟨c :: ds, rfl, by simp [hlen], ?_⟩
              intro x hx
              rcases List.mem_cons.mp hx with rfl | hx
              · exact hd
              · exact hdig x hx
            · rintro ⟨ds, hds, hlen, hdig⟩
              cases ds with
              | nil => simp at hlen
              | cons a ds =>
                  injection hds with h1 h2
                  refine ⟨ds, h2, by simpa using hlen, ?_⟩
                  intro x hx
                  exact hdig x (List.mem_cons_of_mem a hx)
          · rw [if_neg hd]
            constructor
            · intro h; cases h
            · rintro ⟨ds, hds, hlen, hdig⟩
              cases ds with
              | nil => simp at hlen
              | cons a ds =>
                  injection hds with h1 h2
                  exact absurd (h1 ▸ hdig a (List.mem_cons_self a ds)) hd

theorem dollarAnchor_eq_true (cs : List Char) :
    dollarAnchor cs = true ↔ cs = [] ∨ cs = ['\n'] := by
  unfold dollarAnchor
  rcases cs with - | ⟨c, - | ⟨d, t⟩⟩ <;> simp

/-- C4 counterexample: `Phone.validate` accepts the eleven-character string
of ten digits followed by a newline (the regex end anchor also matches just
before a final newline), so "true iff exactly 10 characters, all digits"
fails. -/
theorem c4_counterexample :
    validate_phone "0123456789\n" = true ∧
      "0123456789\n".data.length ≠ 10 ∧
      ¬ (∀ c ∈ "0123456789\n".data, c.isDigit) := by
  decide

/-- C4 (amended): restricted to ASCII inputs, `Phone.validate` returns true
iff the string consists of exactly ten decimal digits optionally followed
by one trailing newline; every other string is rejected. -/
theorem c4_phone_validator (s : String) :
    validate_phone s = true ↔
      ∃ ds : List Char, ds.length = 10 ∧ (∀ c ∈ ds, c.isDigit) ∧
        (s.data = ds ∨ s.data = ds ++ ['\n']) := by
  unfold validate_phone
  cases hm : matchDigitRun 10 s.data with
  | none =>
      constructor
      · intro h; cases h
      · rintro ⟨ds, hlen, hdig, hcase⟩
        rcases hcase with h | h
        · have h10 : matchDigitRun 10 s.data = some [] :=
            (matchDigitRun_eq_some 10 s.data []).mpr
              ⟨ds, by rw [h, List.append_nil], hlen, hdig⟩
          rw [hm] at h10
          cases h10
        · have h10 : matchDigitRun 10 s.data = some ['\n'] :=
            (matchDigitRun_eq_some 10 s.data ['\n']).mpr ⟨ds, h, hlen, hdig⟩
          rw [hm] at h10
          cases h10
  | some rest =>
      simp only
      rw [dollarAnchor_eq_true]
      obtain ⟨ds, hds, hlen, hdig⟩ := (matchDigitRun_eq_some 10 s.data rest).mp hm
      constructor
      · rintro (rfl | rfl)
        · exact ⟨ds, hlen, hdig, .inl (by rw [hds, List.append_nil])⟩
        · exact ⟨ds, hlen, hdig, .inr hds⟩
      · rintro ⟨ds2, hlen2, hdig2, hcase⟩
        rcases hcase with h | h
        · have h10 : matchDigitRun 10 s.data = some [] :=
            (matchDigitRun_eq_some 10 s.data []).mpr
              ⟨ds2, by rw [h, List.append_nil], hlen2, hdig2⟩
          rw [hm] at h10
          injection h10 with h10
          exact .inl h10
        · have h10 : matchDigitRun 10 s.data = some ['\n'] :=
            (matchDigitRun_eq_some 10 s.data ['\n']).mpr ⟨ds2, h, hlen2, hdig2⟩
          rw [hm] at h10
          injection h10 with h10
          exact .inr h10

theorem digitChar_isDigit (n : Nat) : (digitChar n).isDigit = true := by
  unfold digitChar
  split <;> decide

theorem digitVal_digitChar (n : Nat) (h : n ≤ 9) : digitVal (digitChar n) = n := by
  interval_cases n <;> decide

theorem val2_zero_digitChar (d : Nat) (h : d ≤ 9) : val2 '0' (digitChar d) = d := by
  unfold val2
  rw [digitVal_digitChar d h]
  have h0 : digitVal '0' = 0 := by decide
  omega

theorem val2_digitChar (d : Nat) (h : d ≤ 99) :
    val2 (digitChar (d / 10)) (digitChar (d % 10)) = d := by
  unfold val2
  rw [digitVal_digitChar _ (by omega), digitVal_digitChar _ (by omega)]
  omega

theorem dayTok2_units (d : Nat) (h1 : 1 ≤ d) (h9 : d ≤ 9) :
    dayTok2 '0' (digitChar d) = some d := by
  have hv : val2 '0' (digitChar d) = d := val2_zero_digitChar d h9
  unfold dayTok2
  rw [hv, if_pos ⟨by decide, digitChar_isDigit d, h1, by omega⟩]

theorem dayTok2_tens (d : Nat) (h1 : 10 ≤ d) (h2 : d ≤ 31) :
    dayTok2 (digitChar (d / 10)) (digitChar (d % 10)) = some d := by
  have hv := val2_digitChar d (by omega)
  unfold dayTok2
  rw [hv, if_pos ⟨digitChar_isDigit _, digitChar_isDigit _, by omega, h2⟩]

theorem monthTok2_units (m : Nat) (h1 : 1 ≤ m) (h9 : m ≤ 9) :
    monthTok2 '0' (digitChar m) = some m := by
  have hv : val2 '0' (digitChar m) = m := val2_zero_digitChar m h9
  unfold monthTok2
  rw [hv, if_pos ⟨by decide, digitChar_isDigit m, h1, by omega⟩]

theorem monthTok2_tens (m : Nat) (h1 : 10 ≤ m) (h2 : m ≤ 12) :
    monthTok2 (digitChar (m / 10)) (digitChar (m % 10)) = some m := by
  have hv := val2_digitChar m (by omega)
  unfold monthTok2
  rw [hv, if_pos ⟨digitChar_isDigit _, digitChar_isDigit _, by omega, h2⟩]

theorem pad2_day (d : Nat) (h1 : 1 ≤ d) (h2 : d ≤ 31) :
    ∃ a b, pad2 d = [a, b] ∧ dayTok2 a b = some d := by
  unfold pad2
  by_cases h : d < 10
  · rw [if_pos h]
    exact ⟨'0', digitChar d, rfl, dayTok2_units d h1 (by omega)⟩
  · rw [if_neg h]
    exact ⟨_, _, rfl, dayTok2_tens d (by omega) h2⟩

theorem pad2_month (m : Nat) (h1 : 1 ≤ m) (h2 : m ≤ 12) :
    ∃ a b, pad2 m = [a, b] ∧ monthTok2 a b = some m := by
  unfold pad2
  by_cases h : m < 10
  · rw [if_pos h]
    exact ⟨'0', digitChar m, rfl, monthTok2_units m h1 (by omega)⟩
  · rw [if_neg h]
    exact ⟨_, _, rfl, monthTok2_tens m (by omega) h2⟩

theorem yearTok_pad4 (y : Nat) (h : y ≤ 9999) :
    yearTok (digitChar (y / 1000)) (digitChar (y / 100 % 10))
      (digitChar (y / 10 % 10)) (digitChar (y % 10)) = some y := by
  have hv : val4 (digitChar (y / 1000)) (digitChar (y / 100 % 10))
      (digitChar (y / 10 % 10)) (digitChar (y % 10)) = y := by
    unfold val4
    rw [digitVal_digitChar _ (by omega), digitVal_digitChar _ (by omega),
      digitVal_digitChar _ (by omega), digitVal_digitChar _ (by omega)]
    omega
  unfold yearTok
  rw [hv, if_pos ⟨digitChar_isDigit _, digitChar_isDigit _,
    digitChar_isDigit _, digitChar_isDigit _⟩]

theorem strptimeDMY_shape10 (a b c d e f g h i j : Char) :
    strptimeDMY ⟨[a, b, c, d, e, f, g, h, i, j]⟩ =
      if c = '.' ∧ f = '.' then
        buildDate (dayTok2 a b) (monthTok2 d e) (yearTok g h i j)
      else none :=
  rfl

/-- Round-trip from a real calendar date through the storage format back to
the parsed date: rendering a valid date as two-digit day, two-digit month,
four-digit year and re-parsing it with the strptime embedding recovers the
date. -/
theorem strptime_strftime (dt : Date) (hv : dt.Valid) (hy : dt.year ≤ 9999) :
    strptimeDMY (strftimeDMY dt) = some dt := by
  obtain ⟨h1, h2, h3, h4, h5⟩ := hv
  have hd31 : dt.day ≤ 31 := le_trans h5 (daysInMonth_le _ _)
  obtain ⟨a, b, hab, hday⟩ := pad2_day dt.day h4 hd31
  obtain ⟨c, d, hcd, hmon⟩ := pad2_month dt.month h2 h3
  have hstr : strftimeDMY dt =
      ⟨[a, b, '.', c, d, '.', digitChar (dt.year / 1000),
        digitChar (dt.year / 100 % 10), digitChar (dt.year / 10 % 10),
        digitChar (dt.year % 10)]⟩ := by
    unfold strftimeDMY pad4
    rw [hab, hcd]
    rfl
  rw [hstr, strptimeDMY_shape10,
    if_pos (⟨rfl, rfl⟩ : ('.' : Char) = '.' ∧ ('.' : Char) = '.'),
    hday, hmon, yearTok_pad4 dt.year hy]
  show (if 1 ≤ dt.year ∧ dt.day ≤ daysInMonth dt.year dt.month then
      some (Date.mk dt.year dt.month dt.day) else none) = some dt
  rw [if_pos ⟨h1, h5⟩]

/-- C3 counterexample: `Birthday.validate` accepts "1.1.2020": the strptime
day and month directives also match a single digit, so the claimed
rejection of "1.1.2020" does not hold. -/
theorem c3_counterexample : validate_birthday "1.1.2020" = true := by
  decide

/-- C3 (amended): every real DD.MM.YYYY calendar date validates, and the
non-dates "31.02.2024" and "00.01.2020" are rejected as claimed; but a
one-digit day or month is also accepted, so "1.1.2020" validates. -/
theorem c3_birthday_validator (dt : Date) (hv : dt.Valid) (hy : dt.year ≤ 9999) :
    validate_birthday (strftimeDMY dt) = true ∧
      validate_birthday "31.02.2024" = false ∧
      validate_birthday "00.01.2020" = false ∧
      validate_birthday "1.1.2020" = true := by
  refine ⟨?_, by decide, by decide, by decide⟩
  unfold validate_birthday
  rw [strptime_strftime dt hv hy]
  rfl

/-- C3 witness: the amended theorem applied at the concrete leap date
29.02.2024. -/
theorem c3_witness :
    (Date.mk 2024 2 29).Valid ∧ 2024 ≤ 9999 ∧
      (validate_birthday (strftimeDMY ⟨2024, 2, 29⟩) = true ∧
        validate_birthday "31.02.2024" = false ∧
        validate_birthday "00.01.2020" = false ∧
        validate_birthday "1.1.2020" = true) :=
  ⟨by decide, by decide, c3_birthday_validator ⟨2024, 2, 29⟩ (by decide) (by decide)⟩

theorem find?_beq_of_mem (l : List String) (o : String) (h : o ∈ l) :
    l.find? (fun q => q == o) = some o := by
  induction l with
  | nil => cases h
  | cons a t ih =>
      rcases List.mem_cons.mp h with rfl | hm
      · rw [List.find?_cons_of_pos _ (by simp)]
      · by_cases ha : a = o
        · subst ha
          rw [List.find?_cons_of_pos _ (by simp)]
        · rw [List.find?_cons_of_neg _ (by simpa using ha)]
          exact ih hm

theorem find_phone_of_mem (r : Record) (o : String) (h : o ∈ r.phones) :
    find_phone r o = some o :=
  find?_beq_of_mem r.phones o h

/-- C5: `edit_phone` is atomic on an invalid new number: the call fails with
the validation error, the phone sequence is untouched, and in particular a
present old number is still present. -/
theorem c5_edit_phone_atomic (r : Record) (o n : String)
    (h : validate_phone n = false) :
    edit_phone r o n =
        (.error "New phone number must be a string of 10 digits.", r) ∧
      (edit_phone r o n).2.phones = r.phones ∧
      (o ∈ r.phones → o ∈ (edit_phone r o n).2.phones) := by
  have he : edit_phone r o n =
      (.error "New phone number must be a string of 10 digits.", r) := by
    unfold edit_phone
    rw [h]
    rfl
  exact ⟨he, by rw [he], fun hm => by rw [he]; exact hm⟩

/-- C5 witness: editing "1111111111" into the invalid "123" fails and leaves
the record intact. -/
theorem c5_witness :
    validate_phone "123" = false ∧
      (edit_phone ⟨"X", ["1111111111"], none⟩ "1111111111" "123" =
          (.error "New phone number must be a string of 10 digits.",
            ⟨"X", ["1111111111"], none⟩) ∧
        (edit_phone ⟨"X", ["1111111111"], none⟩ "1111111111" "123").2.phones =
          ["1111111111"] ∧
        ("1111111111" ∈ (⟨"X", ["1111111111"], none⟩ : Record).phones →
          "1111111111" ∈
            (edit_phone ⟨"X", ["1111111111"], none⟩ "1111111111" "123").2.phones)) :=
  ⟨by decide,
   c5_edit_phone_atomic ⟨"X", ["1111111111"], none⟩ "1111111111" "123" (by decide)⟩

/-- C8: when the old number is present and the new one is valid,
`edit_phone old new` succeeds, behaves exactly like `remove_phone old`
followed by `add_phone new`, and the resulting sequence is the original with
the first occurrence of the old number erased and the new number appended at
the end, not substituted in place. -/
theorem c8_edit_phone_remove_add (r : Record) (o n : String)
    (ho : o ∈ r.phones) (hn : validate_phone n = true) :
    (edit_phone r o n).1 = .ok () ∧
      (edit_phone r o n).2.phones = r.phones.erase o ++ [n] ∧
      edit_phone r o n = add_phone (remove_phone r o).2 n := by
  have hf : find_phone r o = some o := find_phone_of_mem r o ho
  have hrem : remove_phone r o = (.ok (), { r with phones := r.phones.erase o }) := by
    unfold remove_phone
    rw [hf]
  have hpn : phoneNew n = .ok n := by
    unfold phoneNew
    rw [hn]
    rfl
  have hadd : ∀ r2 : Record,
      add_phone r2 n = (.ok (), { r2 with phones := r2.phones ++ [n] }) := by
    intro r2
    unfold add_phone
    rw [hpn]
  have he : edit_phone r o n =
      (.ok (), { r with phones := r.phones.erase o ++ [n] }) := by
    simp only [edit_phone, hn, hf, Bool.not_true, Bool.false_eq_true, if_false,
      hrem, hadd]
  refine ⟨by rw [he], by rw [he], ?_⟩
  rw [he]
  simp only [hrem, hadd]

/-- C8 witness: the theorem applied to a two-phone record; the first phone
is edited, and the replacement lands at the end of the list. -/
theorem c8_witness :
    "1111111111" ∈ (⟨"X", ["1111111111", "2222222222"], none⟩ : Record).phones ∧
      validate_phone "3333333333" = true ∧
      ((edit_phone ⟨"X", ["1111111111", "2222222222"], none⟩ "1111111111"
          "3333333333").1 = .ok () ∧
        (edit_phone ⟨"X", ["1111111111", "2222222222"], none⟩ "1111111111"
          "3333333333").2.phones =
          ["1111111111", "2222222222"].erase "1111111111" ++ ["3333333333"] ∧
        edit_phone ⟨"X", ["1111111111", "2222222222"], none⟩ "1111111111"
            "3333333333" =
          add_phone (remove_phone ⟨"X", ["1111111111", "2222222222"], none⟩
            "1111111111").2 "3333333333") :=
  ⟨by decide, by decide,
   c8_edit_phone_remove_add ⟨"X", ["1111111111", "2222222222"], none⟩
     "1111111111" "3333333333" (by decide) (by decide)⟩

theorem add_record_keys (b : AddressBook) (r : Record) :
    (add_record b r).map Prod.fst =
      if b.any (fun e => e.1 == r.name) then b.map Prod.fst
      else b.map Prod.fst ++ [r.name] := by
  unfold add_record
  split
  · rw [List.map_map]
    congr 1
    funext e
    by_cases h : e.1 = r.name <;> simp [h]
  · simp

theorem add_record_nodup (b : AddressBook) (r : Record)
    (h : (b.map Prod.fst).Nodup) : ((add_record b r).map Prod.fst).Nodup := by
  rw [add_record_keys]
  split
  · exact h
  · rename_i hany
    have hnm : r.name ∉ b.map Prod.fst := by
      intro hm
      obtain ⟨e, he, heq⟩ := List.mem_map.mp hm
      exact hany (List.any_eq_true.mpr ⟨e, he, by simp [heq]⟩)
    simp [List.nodup_append, h, hnm]

theorem filter_key_singleton (b : AddressBook) (k : String)
    (hnd : (b.map Prod.fst).Nodup) :
    b.filter (fun e => e.1 == k) = [] ∨
      ∃ x, x ∈ b ∧ x.1 = k ∧ b.filter (fun e => e.1 == k) = [x] := by
  induction b with
  | nil => exact .inl rfl
  | cons e t ih =>
      rw [List.map_cons, List.nodup_cons] at hnd
      obtain ⟨hne, hnd⟩ := hnd
      by_cases hek : e.1 = k
      · right
        refine ⟨e, List.mem_cons_self e t, hek, ?_⟩
        rw [List.filter_cons_of_pos (by simp [hek])]
        have ht : t.filter (fun x => x.1 == k) = [] := by
          rw [List.filter_eq_nil_iff]
          intro x hx hxk
          apply hne
          rw [beq_iff_eq] at hxk
          exact List.mem_map.mpr ⟨x, hx, by rw [hxk, ← hek]⟩
        rw [ht]
      · rw [List.filter_cons_of_neg (by simpa using hek)]
        rcases ih hnd with h | ⟨x, hx, hxk, hfil⟩
        · exact .inl h
        · exact .inr ⟨x, List.mem_cons_of_mem e hx, hxk, hfil⟩

theorem add_record_filter (b : AddressBook) (r : Record)
    (hnd : (b.map Prod.fst).Nodup) :
    (add_record b r).filter (fun e => e.1 == r.name) = [(r.name, r)] := by
  unfold add_record
  split
  · rename_i hany
    rw [List.filter_map]
    have hpf : ((fun e : String × Record => e.1 == r.name) ∘
        (fun e : String × Record => if e.1 == r.name then (e.1, r) else e)) =
        (fun e : String × Record => e.1 == r.name) := by
      funext e
      by_cases h : e.1 = r.name <;> simp [h]
    rw [hpf]
    rcases filter_key_singleton b r.name hnd with h | ⟨x, hx, hxk, hfil⟩
    · obtain ⟨e, he, hek⟩ := List.any_eq_true.mp hany
      have : e ∈ b.filter (fun e => e.1 == r.name) := List.mem_filter.mpr ⟨he, hek⟩
      rw [h] at this
      cases this
    · rw [hfil]
      simp [hxk]
  · rename_i hany
    rw [List.filter_append]
    have h1 : b.filter (fun e => e.1 == r.name) = [] := by
      rw [List.filter_eq_nil_iff]
      intro x hx hxk
      exact hany (List.any_eq_true.mpr ⟨x, hx, hxk⟩)
    rw [h1]
    simp

/-- C9: adding two records that share a name leaves exactly one entry under
that name, holding the second record with all its fields, and the
no-duplicate-names invariant of the book is preserved. -/
theorem c9_add_record_overwrites (book : AddressBook) (r1 r2 : Record)
    (hnd : (book.map Prod.fst).Nodup) (hname : r1.name = r2.name) :
    ((add_record (add_record book r1) r2).filter
        (fun e => e.1 == r1.name)).map Prod.snd = [r2] ∧
      ((add_record (add_record book r1) r2).map Prod.fst).Nodup := by
  have hnd1 := add_record_nodup book r1 hnd
  constructor
  · rw [hname, add_record_filter _ r2 hnd1]
    rfl
  · exact add_record_nodup _ r2 hnd1

/-- C9 witness: adding "A" with one phone and then "A" again with a
different phone and a birthday leaves one entry holding the second
record. -/
theorem c9_witness :
    (([] : AddressBook).map Prod.fst).Nodup ∧
      (Record.mk "A" ["1111111111"] none).name =
        (Record.mk "A" ["2222222222"] (some "01.01.1990")).name ∧
      (((add_record (add_record [] ⟨"A", ["1111111111"], none⟩)
            ⟨"A", ["2222222222"], some "01.01.1990"⟩).filter
          (fun e => e.1 == (Record.mk "A" ["1111111111"] none).name)).map
          Prod.snd =
          [⟨"A", ["2222222222"], some "01.01.1990"⟩] ∧
        ((add_record (add_record [] ⟨"A", ["1111111111"], none⟩)
            ⟨"A", ["2222222222"], some "01.01.1990"⟩).map Prod.fst).Nodup) :=
  ⟨by decide, by decide,
   c9_add_record_overwrites [] ⟨"A", ["1111111111"], none⟩
     ⟨"A", ["2222222222"], some "01.01.1990"⟩ (by decide) (by decide)⟩

/-- C6: loading from a missing source returns a fresh empty AddressBook;
any other deserialization failure is surfaced as an error to the caller
rather than swallowed. -/
theorem c6_load_missing_vs_corrupt (source : Option (List Tok)) :
    (source = none → load_data source = .ok []) ∧
    (∀ ts, source = some ts → decodeBook ts = none →
      load_data source = .error "unpickling error") := by
  constructor
  · rintro rfl
    rfl
  · rintro ts rfl hdec
    show (match decodeBook ts with
      | some book => Except.ok book
      | none => Except.error "unpickling error") = Except.error "unpickling error"
    rw [hdec]

/-- C6 witness: the theorem applied to a missing file and to a corrupt
stream. -/
theorem c6_witness :
    load_data none = .ok [] ∧
      load_data (some [Tok.str "garbage"]) = .error "unpickling error" :=
  ⟨(c6_load_missing_vs_corrupt none).1 rfl,
   (c6_load_missing_vs_corrupt (some [Tok.str "garbage"])).2
     [Tok.str "garbage"] rfl (by decide)⟩

theorem decodeStrs_encode (ps : List String) (rest : List Tok) :
    decodeStrs ps.length (ps.map Tok.str ++ rest) = some (ps, rest) := by
  induction ps with
  | nil => rfl
  | cons p t ih =>
      show decodeStrs (t.length + 1) (Tok.str p :: (t.map Tok.str ++ rest)) = _
      unfold decodeStrs
      rw [ih]

theorem decodeRecord_encode (r : Record) (rest : List Tok) :
    decodeRecord (encodeRecord r ++ rest) = some (r, rest) := by
  obtain ⟨nm, ps, bd⟩ := r
  cases bd <;>
    simp [encodeRecord, decodeRecord, decodeBirthday, decodeStrs_encode]

theorem decodeEntries_encode (book : List (String × Record)) (rest : List Tok) :
    decodeEntries book.length (encodeEntries book ++ rest) = some (book, rest) := by
  induction book with
  | nil => rfl
  | cons e t ih =>
      obtain ⟨k, r⟩ := e
      simp [encodeEntries, encodeEntry, decodeEntries, decodeRecord_encode, ih]

/-- C2: the persistence round-trip — loading the saved form of any
AddressBook with any number of records reconstructs the book exactly, so
the set of names, each ordered phone sequence and each optional birthday
are all preserved field-for-field. -/
theorem c2_round_trip (book : AddressBook) :
    load_data (some (save_data book)) = .ok book := by
  have h := decodeEntries_encode book []
  rw [List.append_nil] at h
  simp [load_data, save_data, encodeBook, decodeBook, h]

theorem buildDate_bounds (dv mv yv : Option Nat) (dt : Date)
    (h : buildDate dv mv yv = some dt) :
    1 ≤ dt.year ∧ dt.day ≤ daysInMonth dt.year dt.month := by
  rcases dv with - | d <;> rcases mv with - | m <;> rcases yv with - | y <;>
    simp only [buildDate] at h <;> try cases h
  split_ifs at h with hc
  injection h with h
  subst h
  exact hc

theorem strptimeDMY_bounds (s : String) (dt : Date)
    (h : strptimeDMY s = some dt) :
    1 ≤ dt.year ∧ dt.day ≤ daysInMonth dt.year dt.month := by
  unfold strptimeDMY at h
  split at h <;> try cases h
  all_goals
    split_ifs at h <;> exact buildDate_bounds _ _ _ dt h

theorem replaceYear_some (b : Date) (y : Nat) (d : Date)
    (h : replaceYear b y = some d) :
    d = ⟨y, b.month, b.day⟩ ∧ d.Valid := by
  unfold replaceYear at h
  split_ifs at h with hc
  injection h with h
  exact ⟨h.symm, h ▸ hc⟩

theorem get_upcoming_ok_eq (t : Date) (book : AddressBook) (l : List Entry)
    (h : get_upcoming_birthdays t book = .ok l) :
    l = book.filterMap (fun e =>
      match upcomingOfRecord t e.2 with
      | .ok o => o
      | .error _ => none) := by
  induction book generalizing l with
  | nil =>
      injection h with h
      rw [← h]
      rfl
  | cons x rest ih =>
      unfold get_upcoming_birthdays at h
      rcases hx : upcomingOfRecord t x.2 with m | o
      · rw [hx] at h
        replace h : (Except.error m : Except String (List Entry)) = .ok l := h
        cases h
      · rw [hx] at h
        cases o with
        | none =>
            replace h : get_upcoming_birthdays t rest = .ok l := h
            simp only [List.filterMap_cons, hx]
            exact ih l h
        | some en =>
            replace h : (match get_upcoming_birthdays t rest with
              | Except.error m => Except.error m
              | Except.ok l2 => Except.ok (en :: l2)) = Except.ok l := h
            rcases hrest : get_upcoming_birthdays t rest with m | l2
            · rw [hrest] at h
              replace h : (Except.error m : Except String (List Entry)) = .ok l := h
              cases h
            · rw [hrest] at h
              replace h : (Except.ok (en :: l2) : Except String (List Entry)) =
                .ok l := h
              injection h with h
              rw [← h]
              simp only [List.filterMap_cons, hx]
              rw [ih l2 hrest]

theorem get_upcoming_error_of_mem (t : Date) (book : AddressBook)
    (e : String × Record) (m : String) (hmem : e ∈ book)
    (herr : upcomingOfRecord t e.2 = .error m) :
    ∃ m2, get_upcoming_birthdays t book = .error m2 := by
  induction book with
  | nil => cases hmem
  | cons x rest ih =>
      rcases List.mem_cons.mp hmem with rfl | hm
      · refine ⟨m, ?_⟩
        unfold get_upcoming_birthdays
        rw [herr]
      · obtain ⟨m2, hm2⟩ := ih hm
        unfold get_upcoming_birthdays
        rcases hx : upcomingOfRecord t x.2 with m3 | o
        · exact ⟨m3, rfl⟩
        · rcases o with - | en
          · exact ⟨m2, hm2⟩
          · refine ⟨m2, ?_⟩
            show (match get_upcoming_birthdays t rest with
              | Except.error m4 => Except.error m4
              | Except.ok l2 => Except.ok (en :: l2)) = Except.error m2
            rw [hm2]

theorem upcomingOfRecord_eq (t : Date) (r : Record) (s : String) (b b0 bty : Date)
    (hb : r.birthday = some s) (hparse : strptimeDMY s = some b)
    (hb0 : replaceYear b t.year = some b0)
    (hbty : (if dateLt b0 t then replaceYear b (t.year + 1) else some b0)
      = some bty) :
    upcomingOfRecord t r =
      if 0 ≤ (toordinal bty : Int) - (toordinal t : Int) ∧
          (toordinal bty : Int) - (toordinal t : Int) < 7 then
        .ok (some ⟨r.name, strftimeDMY
          (if pyWeekday bty = 5 ∨ pyWeekday bty = 6 then
            addDays bty (7 - pyWeekday bty) else bty)⟩)
      else .ok none := by
  simp only [upcomingOfRecord, hb, hparse, hb0, hbty]

theorem upcomingOfRecord_inv (t : Date) (r : Record) (en : Entry)
    (h : upcomingOfRecord t r = .ok (some en)) :
    ∃ s b b0 bty, r.birthday = some s ∧ strptimeDMY s = some b ∧
      replaceYear b t.year = some b0 ∧
      (if dateLt b0 t then replaceYear b (t.year + 1) else some b0)
        = some bty ∧
      (0 ≤ (toordinal bty : Int) - (toordinal t : Int) ∧
        (toordinal bty : Int) - (toordinal t : Int) < 7) ∧
      en = ⟨r.name, strftimeDMY
        (if pyWeekday bty = 5 ∨ pyWeekday bty = 6 then
          addDays bty (7 - pyWeekday bty) else bty)⟩ := by
  cases hbday : r.birthday with
  | none => simp [upcomingOfRecord, hbday] at h
  | some s =>
    cases hp : strptimeDMY s with
    | none => simp [upcomingOfRecord, hbday, hp] at h
    | some b =>
      cases h0 : replaceYear b t.year with
      | none => simp [upcomingOfRecord, hbday, hp, h0] at h
      | some b0 =>
        cases hbt : (if dateLt b0 t then replaceYear b (t.year + 1)
            else some b0) with
        | none => simp [upcomingOfRecord, hbday, hp, h0, hbt] at h
        | some bty =>
          simp only [upcomingOfRecord, hbday, hp, h0, hbt] at h
          split_ifs at h with hw hwk
          · injection h with h
            injection h with h
            refine ⟨s, b, b0, bty, rfl, hp, h0, hbt, hw, ?_⟩
            rw [if_pos hwk]
            exact h.symm
          · injection h with h
            injection h with h
            refine ⟨s, b, b0, bty, rfl, hp, h0, hbt, hw, ?_⟩
            rw [if_neg hwk]
            exact h.symm
          · simp at h

theorem upcomingOfRecord_ok_name (t : Date) (r : Record) (en : Entry)
    (h : upcomingOfRecord t r = .ok (some en)) : en.name = r.name := by
  obtain ⟨s, b, b0, bty, -, -, -, -, -, hen⟩ := upcomingOfRecord_inv t r en h
  rw [hen]

theorem upcomingOfRecord_weekday (t : Date) (r : Record) (en : Entry)
    (h : upcomingOfRecord t r = .ok (some en)) :
    ∃ g : Date, g.Valid ∧ pyWeekday g < 5 ∧
      en.congratulate_on = strftimeDMY g := by
  obtain ⟨s, b, b0, bty, -, -, h0, hbt, -, hen⟩ := upcomingOfRecord_inv t r en h
  have hvb : bty.Valid := by
    by_cases hlt : dateLt b0 t
    · rw [if_pos hlt] at hbt
      exact (replaceYear_some b _ bty hbt).2
    · rw [if_neg hlt] at hbt
      injection hbt with hbt
      exact hbt ▸ (replaceYear_some b _ b0 h0).2
  have hlt7 : pyWeekday bty < 7 := Nat.mod_lt _ (by norm_num)
  by_cases hwk : pyWeekday bty = 5 ∨ pyWeekday bty = 6
  · refine ⟨addDays bty (7 - pyWeekday bty), addDays_valid bty hvb _, ?_, ?_⟩
    · rw [pyWeekday_addDays bty hvb]
      omega
    · rw [hen, if_pos hwk]
  · refine ⟨bty, hvb, by omega, ?_⟩
    rw [hen, if_neg hwk]

theorem upcomingOfRecord_error_feb29 (t : Date) (r : Record) (s : String)
    (y : Nat) (hb : r.birthday = some s)
    (hparse : strptimeDMY s = some ⟨y, 2, 29⟩)
    (hleap : isLeap t.year = false) :
    upcomingOfRecord t r = .error "day is out of range for month" := by
  have hrep : replaceYear ⟨y, 2, 29⟩ t.year = none := by
    unfold replaceYear
    rw [if_neg]
    rintro ⟨-, -, -, -, h29⟩
    have h29n : (29 : Nat) ≤ daysInMonth t.year 2 := h29
    have hdim : daysInMonth t.year 2 = 28 := by simp [daysInMonth, hleap]
    omega
  simp only [upcomingOfRecord, hb, hparse, hrep]

/-- C7: a record whose birthday is February 29 of a leap year makes
`get_upcoming_birthdays` raise when the current year is not a leap year:
the naive `replace(year=...)` reconstruction fails outright, so the whole
query errors instead of applying any policy. -/
theorem c7_feb29_raises (t : Date) (book : AddressBook) (e : String × Record)
    (s : String) (y : Nat) (hmem : e ∈ book) (hb : e.2.birthday = some s)
    (hparse : strptimeDMY s = some ⟨y, 2, 29⟩)
    (hleap : isLeap t.year = false) :
    isLeap y = true ∧ ∃ m, get_upcoming_birthdays t book = .error m := by
  have hbounds := strptimeDMY_bounds s ⟨y, 2, 29⟩ hparse
  have hly : isLeap y = true := by
    rcases hbounds with ⟨-, h29⟩
    by_contra hny
    rw [Bool.not_eq_true] at hny
    have hdim : daysInMonth y 2 = 28 := by simp [daysInMonth, hny]
    have h29n : (29 : Nat) ≤ daysInMonth y 2 := h29
    omega
  exact ⟨hly, get_upcoming_error_of_mem t book e "day is out of range for month"
    hmem (upcomingOfRecord_error_feb29 t e.2 s y hb hparse hleap)⟩

/-- C7 witness: the theorem applied to a book holding a 29.02.2024 birthday
queried in the non-leap year 2025. -/
theorem c7_witness :
    isLeap 2024 = true ∧
      ∃ m, get_upcoming_birthdays ⟨2025, 6, 10⟩
        [("Bob", ⟨"Bob", [], some "29.02.2024"⟩)] = .error m :=
  c7_feb29_raises ⟨2025, 6, 10⟩ [("Bob", ⟨"Bob", [], some "29.02.2024"⟩)]
    ("Bob", ⟨"Bob", [], some "29.02.2024"⟩) "29.02.2024" 2024
    (by decide) rfl (by decide) (by decide)

theorem filterMap_entry_name (t : Date) (x : String × Record) (en : Entry)
    (hfx : (match upcomingOfRecord t x.2 with
      | Except.ok o => o
      | Except.error _ => none) = some en) :
    upcomingOfRecord t x.2 = .ok (some en) := by
  rcases hux : upcomingOfRecord t x.2 with m | o
  · rw [hux] at hfx
    replace hfx : (none : Option Entry) = some en := hfx
    cases hfx
  · rw [hux] at hfx
    replace hfx : o = some en := hfx
    rw [hfx]

/-- C1: for a record with a parsable birthday whose year placement succeeds,
an entry for it appears in a successful `get_upcoming_birthdays` result
exactly when the placed date lies 0 to 6 days ahead of today; the placement
uses the current year, or the next year when the current-year date is
strictly before today; and the emitted `congratulate_on` value is the placed
date, moved forward by `7 - weekday` days when it falls on Saturday or
Sunday (weekday 5 or 6, Monday-indexed), rendered as DD.MM.YYYY. -/
theorem c1_upcoming_window_and_shift (t : Date) (book : AddressBook)
    (l : List Entry) (e : String × Record) (s : String) (b b0 bty : Date)
    (hok : get_upcoming_birthdays t book = .ok l)
    (hnd : (book.map (fun x => x.2.name)).Nodup)
    (hmem : e ∈ book)
    (hb : e.2.birthday = some s)
    (hparse : strptimeDMY s = some b)
    (hb0 : replaceYear b t.year = some b0)
    (hbty : (if dateLt b0 t then replaceYear b (t.year + 1) else some b0)
      = some bty) :
    (bty = ⟨t.year, b.month, b.day⟩ ∨
      (dateLt b0 t = true ∧ bty = ⟨t.year + 1, b.month, b.day⟩)) ∧
    ((∃ en ∈ l, en.name = e.2.name) ↔
      toordinal t ≤ toordinal bty ∧ toordinal bty < toordinal t + 7) ∧
    (∀ en ∈ l, en.name = e.2.name →
      en.congratulate_on = strftimeDMY
        (if pyWeekday bty = 5 ∨ pyWeekday bty = 6 then
          addDays bty (7 - pyWeekday bty) else bty)) := by
  have hl := get_upcoming_ok_eq t book l hok
  have hrec := upcomingOfRecord_eq t e.2 s b b0 bty hb hparse hb0 hbty
  have hiff : (0 ≤ (toordinal bty : Int) - (toordinal t : Int) ∧
      (toordinal bty : Int) - (toordinal t : Int) < 7) ↔
      (toordinal t ≤ toordinal bty ∧ toordinal bty < toordinal t + 7) := by
    omega
  have hplace : bty = ⟨t.year, b.month, b.day⟩ ∨
      (dateLt b0 t = true ∧ bty = ⟨t.year + 1, b.month, b.day⟩) := by
    by_cases hlt : dateLt b0 t
    · rw [if_pos hlt] at hbty
      exact .inr ⟨hlt, (replaceYear_some b _ bty hbty).1⟩
    · rw [if_neg hlt] at hbty
      injection hbty with hbty
      exact .inl (hbty ▸ (replaceYear_some b _ b0 hb0).1)
  refine ⟨hplace, ⟨?_, ?_⟩, ?_⟩
  · rintro ⟨en, hen, hname⟩
    rw [hl] at hen
    obtain ⟨x, hx, hfx⟩ := List.mem_filterMap.mp hen
    replace hfx : (match upcomingOfRecord t x.2 with
      | Except.ok o => o
      | Except.error _ => none) = some en := hfx
    have hux := filterMap_entry_name t x en hfx
    have hxname : en.name = x.2.name := upcomingOfRecord_ok_name t x.2 en hux
    have hxe : x = e :=
      List.inj_on_of_nodup_map hnd hx hmem (by rw [← hxname, hname])
    rw [hxe, hrec] at hux
    split_ifs at hux with hw hwk
    · exact hiff.mp hw
    · exact hiff.mp hw
    · injection hux with hux
      cases hux
  · intro hw
    refine ⟨⟨e.2.name, strftimeDMY (if pyWeekday bty = 5 ∨ pyWeekday bty = 6
        then addDays bty (7 - pyWeekday bty) else bty)⟩, ?_, rfl⟩
    rw [hl]
    refine List.mem_filterMap.mpr ⟨e, hmem, ?_⟩
    show (match upcomingOfRecord t e.2 with
      | Except.ok o => o
      | Except.error _ => none) = _
    rw [hrec, if_pos (hiff.mpr hw)]
  · intro en hen hname
    rw [hl] at hen
    obtain ⟨x, hx, hfx⟩ := List.mem_filterMap.mp hen
    replace hfx : (match upcomingOfRecord t x.2 with
      | Except.ok o => o
      | Except.error _ => none) = some en := hfx
    have hux := filterMap_entry_name t x en hfx
    have hxname : en.name = x.2.name := upcomingOfRecord_ok_name t x.2 en hux
    have hxe : x = e :=
      List.inj_on_of_nodup_map hnd hx hmem (by rw [← hxname, hname])
    rw [hxe, hrec] at hux
    split_ifs at hux with hw hwk
    · injection hux with hux
      injection hux with hux
      rw [if_pos hwk, ← hux]
    · injection hux with hux
      injection hux with hux
      rw [if_neg hwk, ← hux]
    · injection hux with hux
      cases hux

/-- C1 witness: today Monday 12.10.2026, one record "E" with birthday
17.10.1990; its placed date 17.10.2026 is a Saturday five days ahead, and
the theorem yields the Monday 19.10.2026 greeting. -/
theorem c1_witness :
    ((⟨2026, 10, 17⟩ : Date) = ⟨2026, 10, 17⟩ ∨
      (dateLt ⟨2026, 10, 17⟩ ⟨2026, 10, 12⟩ = true ∧
        (⟨2026, 10, 17⟩ : Date) = ⟨2027, 10, 17⟩)) ∧
    ((∃ en ∈ [Entry.mk "E" "19.10.2026"], en.name = "E") ↔
      toordinal ⟨2026, 10, 12⟩ ≤ toordinal ⟨2026, 10, 17⟩ ∧
        toordinal ⟨2026, 10, 17⟩ < toordinal ⟨2026, 10, 12⟩ + 7) ∧
    (∀ en ∈ [Entry.mk "E" "19.10.2026"], en.name = "E" →
      en.congratulate_on = strftimeDMY
        (if pyWeekday ⟨2026, 10, 17⟩ = 5 ∨ pyWeekday ⟨2026, 10, 17⟩ = 6 then
          addDays ⟨2026, 10, 17⟩ (7 - pyWeekday ⟨2026, 10, 17⟩)
        else ⟨2026, 10, 17⟩)) :=
  c1_upcoming_window_and_shift ⟨2026, 10, 12⟩
    [("E", ⟨"E", [], some "17.10.1990"⟩)] [⟨"E", "19.10.2026"⟩]
    ("E", ⟨"E", [], some "17.10.1990"⟩) "17.10.1990"
    ⟨1990, 10, 17⟩ ⟨2026, 10, 17⟩ ⟨2026, 10, 17⟩
    rfl (by decide) (by decide) rfl rfl rfl rfl

/-- C10: every entry a successful `get_upcoming_birthdays` call returns
carries a greeting date whose weekday is Monday through Friday — a
returned `congratulate_on` date is never a Saturday or a Sunday. -/
theorem c10_no_weekend_greeting (t : Date) (book : AddressBook)
    (l : List Entry) (hok : get_upcoming_birthdays t book = .ok l) :
    ∀ en ∈ l, ∃ g : Date, g.Valid ∧ pyWeekday g < 5 ∧
      en.congratulate_on = strftimeDMY g := by
  have hl := get_upcoming_ok_eq t book l hok
  intro en hen
  rw [hl] at hen
  obtain ⟨x, hx, hfx⟩ := List.mem_filterMap.mp hen
  replace hfx : (match upcomingOfRecord t x.2 with
    | Except.ok o => o
    | Except.error _ => none) = some en := hfx
  exact upcomingOfRecord_weekday t x.2 en (filterMap_entry_name t x en hfx)

/-- C10 witness: the theorem applied to the Saturday-birthday book, whose
single returned greeting lands on the Monday 19.10.2026. -/
theorem c10_witness :
    ∃ g : Date, g.Valid ∧ pyWeekday g < 5 ∧
      (Entry.mk "E" "19.10.2026").congratulate_on = strftimeDMY g :=
  c10_no_weekend_greeting ⟨2026, 10, 12⟩ [("E", ⟨"E", [], some "17.10.1990"⟩)]
    [⟨"E", "19.10.2026"⟩] rfl ⟨"E", "19.10.2026"⟩ (by decide)

/-- C4 witness: the characterization evaluated at a plain ten-digit
string. -/
theorem c4_witness :
    validate_phone "0123456789" = true ↔
      ∃ ds : List Char, ds.length = 10 ∧ (∀ c ∈ ds, c.isDigit) ∧
        ("0123456789".data = ds ∨ "0123456789".data = ds ++ ['\n']) :=
  c4_phone_validator "0123456789"

/-- C2 witness: the round trip applied to a concrete two-record book. -/
theorem c2_witness :
    load_data (some (save_data
      [("A", ⟨"A", ["1111111111"], some "01.01.1990"⟩),
       ("B", ⟨"B", [], none⟩)])) =
      .ok [("A", ⟨"A", ["1111111111"], some "01.01.1990"⟩),
        ("B", ⟨"B", [], none⟩)] :=
  c2_round_trip [("A", ⟨"A", ["1111111111"], some "01.01.1990"⟩),
    ("B", ⟨"B", [], none⟩)]

end AB
